import Mathlib

/-!
Verification of the input-selection subsystem of the iota client library,
over a shallow embedding of the Rust sources.  The helper functions
(`minimum_storage_deposit`, `sdr_not_expired`, `sort_input_signing_data`,
`output_contains_address`) are embedded directly from
`src/api/block_builder/input_selection/helpers.rs`; the input-selection
engine itself is not part of the repository snapshot (only its tests are),
so it is modelled from the specification, pinned by the repository's tests
where they speak.
-/

/-- Ledger address, per the source `Address` enum: an ed25519 address, an
alias address carrying an alias id, or an nft address carrying an nft id.
Identifiers are abstracted as natural numbers. -/
inductive Address where
  | ed25519 (keyHash : Nat)
  | alias (id : Nat)
  | nft (id : Nat)
deriving DecidableEq, Repr

/-- Unlock conditions attached to an output (bee `UnlockConditions`),
restricted to the condition kinds the source consults.  A storage deposit
return condition is a return address with an amount; an expiration is a
return address with a unix timestamp. -/
structure UnlockConditions where
  address : Option Address := none
  storageDepositReturn : Option (Address × Nat) := none
  timelock : Option Nat := none
  expiration : Option (Address × Nat) := none
  stateController : Option Address := none
  governor : Option Address := none
  immutableAlias : Option Address := none
deriving DecidableEq, Repr

/-- Ledger output, per the source `Output` enum, with the fields the claims
consult.  Native-token bags are lists of (token id, quantity) pairs; sender
and issuer features are optional addresses (issuer being immutable). -/
inductive Output where
  | basic (amount : Nat) (tokens : List (Nat × Nat)) (uc : UnlockConditions)
      (sender : Option Address)
  | alias (amount : Nat) (tokens : List (Nat × Nat)) (aliasId : Nat) (stateIndex : Nat)
      (stateMetadataLen : Nat) (foundryCounter : Nat) (uc : UnlockConditions)
      (sender : Option Address) (issuer : Option Address)
  | nft (amount : Nat) (tokens : List (Nat × Nat)) (nftId : Nat) (uc : UnlockConditions)
      (sender : Option Address) (issuer : Option Address)
  | foundry (amount : Nat) (tokens : List (Nat × Nat)) (serialNumber : Nat)
      (uc : UnlockConditions)
  | treasury (amount : Nat)
deriving DecidableEq, Repr

/-- Base-token amount of an output. -/
def Output.amount : Output → Nat
  | .basic a _ _ _ => a
  | .alias a _ _ _ _ _ _ _ _ => a
  | .nft a _ _ _ _ _ => a
  | .foundry a _ _ _ => a
  | .treasury a => a

/-- Native-token bag of an output (empty for treasury outputs). -/
def Output.tokens : Output → List (Nat × Nat)
  | .basic _ ts _ _ => ts
  | .alias _ ts _ _ _ _ _ _ _ => ts
  | .nft _ ts _ _ _ _ => ts
  | .foundry _ ts _ _ => ts
  | .treasury _ => []

/-- Unlock conditions of an output; `none` for treasury outputs, mirroring
bee's `Output::unlock_conditions`. -/
def Output.unlockConditions : Output → Option UnlockConditions
  | .basic _ _ uc _ => some uc
  | .alias _ _ _ _ _ _ uc _ _ => some uc
  | .nft _ _ _ uc _ _ => some uc
  | .foundry _ _ _ uc => some uc
  | .treasury _ => none

/-- Whether an output is a basic output. -/
def Output.isBasic : Output → Bool
  | .basic _ _ _ _ => true
  | _ => false

/-- Rent structure of the protocol parameters: a byte cost with weight
factors for key and data fields. -/
structure RentStructure where
  vByteCost : Nat
  vByteFactorKey : Nat
  vByteFactorData : Nat
deriving DecidableEq, Repr

/-- Default protocol rent structure used by the repository's tests:
byte cost 500, key factor 10, data factor 1. -/
def defaultRentStructure : RentStructure := ⟨500, 10, 1⟩

/-- Serialized byte contribution of an optional field. -/
def optSize (n : Nat) : Option α → Nat
  | none => 0
  | some _ => n

/-- Serialized byte size of an unlock-condition set: a count byte plus each
present condition (kind byte plus payload; addresses serialize to 33 bytes,
amounts to 8, timestamps to 4). -/
def UnlockConditions.byteSize (uc : UnlockConditions) : Nat :=
  1 + optSize 34 uc.address + optSize 42 uc.storageDepositReturn + optSize 5 uc.timelock
    + optSize 38 uc.expiration + optSize 34 uc.stateController + optSize 34 uc.governor
    + optSize 34 uc.immutableAlias

/-- Serialized byte size of a native-token bag: a count byte plus 70 bytes
(38-byte token id, 32-byte quantity) per token. -/
def tokensByteSize (tokens : List (Nat × Nat)) : Nat := 1 + 70 * tokens.length

/-- Serialized byte size of an output in canonical form: kind byte, 8-byte
amount, native tokens, identity fields, unlock conditions, and feature-count
bytes with 34 bytes per sender/issuer feature.  The amount field occupies a
fixed 8 bytes whatever its value. -/
def Output.byteSize : Output → Nat
  | .basic _ tokens uc sender =>
      1 + 8 + tokensByteSize tokens + uc.byteSize + 1 + optSize 34 sender
  | .alias _ tokens _ _ smLen _ uc sender issuer =>
      1 + 8 + tokensByteSize tokens + 32 + 4 + (2 + smLen) + 4 + uc.byteSize
        + 1 + optSize 34 sender + 1 + optSize 34 issuer
  | .nft _ tokens _ uc sender issuer =>
      1 + 8 + tokensByteSize tokens + 32 + uc.byteSize + 1 + optSize 34 sender
        + 1 + optSize 34 issuer
  | .foundry _ tokens _ uc =>
      1 + 8 + tokensByteSize tokens + 4 + 97 + uc.byteSize + 1 + 1
  | .treasury _ => 1 + 8

/-- Modelled from the spec: bee's `Rent::rent_cost`, absent from the
repository snapshot — the storage-deposit cost
`v_byte_cost × (v_byte_factor_key × key_size + v_byte_factor_data × data_size)`
over the output's canonical serialized form, where the key size covers the
34-byte output-id reference and the data size covers the 40 bytes of ledger
metadata plus the serialized output itself. -/
def rentCost (rs : RentStructure) (o : Output) : Nat :=
  rs.vByteCost * (rs.vByteFactorKey * 34 + rs.vByteFactorData * (40 + o.byteSize))

/-- Shallow embedding of `minimum_storage_deposit` (helpers.rs:20-38): build
a basic output with the placeholder amount 1_000_000_000, the given native
tokens and a single address unlock condition, and return its rent cost.  The
source's `Result` is always `Ok` on this path (the placeholder amount is
within the valid range), so the embedding returns the amount directly. -/
def minimum_storage_deposit (config : RentStructure) (address : Address)
    (native_tokens : Option (List (Nat × Nat))) : Nat :=
  rentCost config (Output.basic 1000000000 (native_tokens.getD [])
    { address := some address } none)

/-- Shallow embedding of `sdr_not_expired` (helpers.rs:41-58): return the
storage-deposit-return unlock condition unless the output also carries an
expiration whose timestamp has been reached. -/
def sdr_not_expired (output : Output) (current_time : Nat) : Option (Address × Nat) :=
  match output.unlockConditions with
  | none => none
  | some uc =>
    match uc.storageDepositReturn with
    | none => none
    | some sdr =>
      let expired : Bool :=
        match uc.expiration with
        | some e => decide (current_time ≥ e.2)
        | none => false
      if expired then none else some sdr

/-- Modelled from the spec: bee's `UnlockConditions::locked_address`, absent
from the repository snapshot — once an expiration's timestamp is reached,
control of the output passes to the expiration's return address; before
that, the address unlock's own address holds it. -/
def lockedAddress (uc : UnlockConditions) (address : Address) (current_time : Nat) : Address :=
  match uc.expiration with
  | some e => if current_time ≥ e.2 then e.1 else address
  | none => address

/-- Shallow embedding of `output_contains_address` (helpers.rs:153-186):
check whether an address is required for unlocking an output in any unlock
condition. -/
def output_contains_address (output : Output) (address : Address) (current_time : Nat) : Bool :=
  match output.unlockConditions with
  | none => false
  | some uc =>
    (match uc.address with
     | some a => decide (address = lockedAddress uc a current_time)
     | none => false) ||
    decide (uc.stateController = some address) ||
    decide (uc.governor = some address) ||
    decide (uc.immutableAlias = some address)

/-- Shallow embedding of `InputSigningData`: the output, its output id, and
the controlling bech32 address.  The source stores the address as a bech32
string and decodes it with `try_from_bech32`, asserting success; the
embedding stores the decoded address directly. -/
structure InputSigningData where
  output : Output
  outputId : Nat
  bech32Address : Address
deriving DecidableEq, Repr

/-- Modelled from the spec: `or_from_output_id` — a zero (creation-state)
alias/nft id resolves to the hash of the originating output id; the hash is
kept as an explicit function parameter of the embedding. -/
def orFromOutputId (h : Nat → Nat) (id outputId : Nat) : Nat :=
  if id = 0 then h outputId else id

/-- Modelled from the spec: a concrete stand-in for the blake2b hash of an
output id, used only to instantiate the hash parameter on concrete inputs
whose ids are non-zero (so the stand-in is never consulted). -/
def hashModel : Nat → Nat := fun outputId => outputId + 1000

/-- Whether an address is an ed25519 address (the `kind` comparison at
helpers.rs:66). -/
def isEd25519 : Address → Bool
  | .ed25519 _ => true
  | _ => false

/-- The closure at helpers.rs:78-105: whether candidate `cand`'s output
carries the alias/nft identity that `inp`'s controlling address names. -/
def unlocksInput (h : Nat → Nat) (inp cand : InputSigningData) : Bool :=
  match inp.bech32Address with
  | .alias aid =>
    match cand.output with
    | .alias _ _ candId _ _ _ _ _ _ => decide (orFromOutputId h candId cand.outputId = aid)
    | _ => false
  | .nft nid =>
    match cand.output with
    | .nft _ _ candId _ _ _ => decide (orFromOutputId h candId cand.outputId = nid)
    | _ => false
  | _ => false

/-- The alias/nft address built at helpers.rs:112-124 from `inp`'s own
output, if it is an alias or nft output. -/
def identityAddress (h : Nat → Nat) (inp : InputSigningData) : Option Address :=
  match inp.output with
  | .alias _ _ aid _ _ _ _ _ _ => some (.alias (orFromOutputId h aid inp.outputId))
  | .nft _ _ nid _ _ _ => some (.nft (orFromOutputId h nid inp.outputId))
  | _ => none

/-- One iteration of the loop at helpers.rs:69-147: skip inputs whose output
id is already placed; otherwise insert directly after the first already
placed input carrying the referenced identity, or before the first already
placed input controlled by this input's own identity address, or at the
end. -/
def insertInput (h : Nat → Nat) (sorted : List InputSigningData) (inp : InputSigningData) :
    List InputSigningData :=
  if sorted.any (fun i => decide (i.outputId = inp.outputId)) then sorted
  else
    match sorted.findIdx? (fun cand => unlocksInput h inp cand) with
    | some p => sorted.insertIdx (p + 1) inp
    | none =>
      match identityAddress h inp with
      | some a =>
        match sorted.findIdx? (fun cand => decide (cand.bech32Address = a)) with
        | some p => sorted.insertIdx p inp
        | none => sorted ++ [inp]
      | none => sorted ++ [inp]

/-- Requirement kinds of the engine (spec §3). -/
inductive Requirement where
  | amount (n : Nat)
  | nativeToken (tokenId qty : Nat)
  | alias (id : Nat)
  | nft (id : Nat)
  | foundry (id : Nat × Nat)
  | sender (addr : Address)
  | issuer (addr : Address)
deriving DecidableEq, Repr

/-- Error taxonomy of the engine (spec §7). -/
inductive SelectionError where
  | insufficientBaseTokenAmount (found required : Nat)
  | insufficientNativeTokenAmount (tokenId found required : Nat)
  | insufficientStorageDepositAmount (amount required : Nat)
  | unfulfillableRequirement (r : Requirement)
  | burnAndTransition (id : Nat)
  | cyclicUnlockChain
  | invalidInput
deriving DecidableEq, Repr

/-- Shallow embedding of `sort_input_signing_data` (helpers.rs:61-150):
start from the ed25519-controlled inputs in insertion order, then run the
placement loop over all inputs.  The source's return type is `Result` but
the body constructs no error; the embedding mirrors that. -/
def sort_input_signing_data (h : Nat → Nat) (inputs : List InputSigningData) :
    Except SelectionError (List InputSigningData) :=
  .ok (inputs.foldl (insertInput h) (inputs.filter fun i => isEd25519 i.bech32Address))

/-- Concrete alias input of a two-element cyclic unlock chain: its alias id
is 11, and it is controlled by nft address 22. -/
def cycA : InputSigningData :=
  ⟨Output.alias 1000000 [] 11 0 0 0
     { stateController := some (Address.ed25519 0), governor := some (Address.ed25519 0) }
     none none,
   101, Address.nft 22⟩

/-- Concrete nft input closing the cycle: its nft id is 22, and it is
controlled by alias address 11. -/
def cycB : InputSigningData :=
  ⟨Output.nft 1000000 [] 22 { address := some (Address.alias 11) } none none,
   102, Address.alias 11⟩

/-- Whether an input's controlling address is an alias or nft address. -/
def isIdentityControlled (inp : InputSigningData) : Bool :=
  match inp.bech32Address with
  | .alias _ => true
  | .nft _ => true
  | _ => false

/-- The ordering property claimed for the sort pass, as a Boolean predicate
checked along the list: whenever an input is controlled by an alias/nft
address and some input of the whole list carries the referenced identity,
an input carrying it must occur strictly earlier. -/
def referentsPlacedEarlier (h : Nat → Nat) (whole : List InputSigningData) :
    List InputSigningData → List InputSigningData → Bool
  | _, [] => true
  | seen, inp :: rest =>
    (!isIdentityControlled inp || !whole.any (unlocksInput h inp)
       || seen.any (unlocksInput h inp))
      && referentsPlacedEarlier h whole (seen ++ [inp]) rest

/-- Ed25519-controlled nft input anchoring a four-step acyclic chain: nft
id 5, controlled by an ed25519 address. -/
def chainE : InputSigningData :=
  ⟨Output.nft 1000000 [] 5 { address := some (Address.ed25519 1) } none none,
   205, Address.ed25519 1⟩

/-- Alias input with alias id 4, controlled by nft address 5 (that is, by
`chainE`'s identity). -/
def chainM : InputSigningData :=
  ⟨Output.alias 1000000 [] 4 0 0 0
     { stateController := some (Address.nft 5), governor := some (Address.nft 5) }
     none none,
   204, Address.nft 5⟩

/-- Alias input with alias id 3, controlled by alias address 4. -/
def chainR : InputSigningData :=
  ⟨Output.alias 1000000 [] 3 0 0 0
     { stateController := some (Address.alias 4), governor := some (Address.alias 4) }
     none none,
   203, Address.alias 4⟩

/-- Alias input with alias id 2, controlled by alias address 3. -/
def chainX : InputSigningData :=
  ⟨Output.alias 1000000 [] 2 0 0 0
     { stateController := some (Address.alias 3), governor := some (Address.alias 3) }
     none none,
   202, Address.alias 3⟩

/-- Basic input controlled by alias address 2 (that is, by `chainX`'s
identity). -/
def chainU : InputSigningData :=
  ⟨Output.basic 1000000 [] { address := some (Address.alias 2) } none,
   201, Address.alias 2⟩

/-- Output ids of a list of inputs. -/
def idsOf (l : List InputSigningData) : List Nat := l.map InputSigningData.outputId

/-- Witness inputs for the permutation theorem: two entries with distinct
output ids, one ed25519-controlled and one alias-controlled. -/
def wIn1 : InputSigningData :=
  ⟨Output.basic 500 [] { address := some (Address.ed25519 3) } none, 301, Address.ed25519 3⟩

/-- Second witness input for the permutation theorem. -/
def wIn2 : InputSigningData :=
  ⟨Output.basic 600 [] { address := some (Address.alias 9) } none, 302, Address.alias 9⟩

/-- Duplicated ed25519-controlled entry used by the C10 counterexample. -/
def dupE : InputSigningData :=
  ⟨Output.basic 700 [] { address := some (Address.ed25519 7) } none, 300, Address.ed25519 7⟩

/-- Burn directive (spec §4.3): identities and native-token quantities to be
consumed without a corresponding output. -/
structure Burn where
  aliases : List Nat := []
  nfts : List Nat := []
  foundries : List (Nat × Nat) := []
  nativeTokens : List (Nat × Nat) := []
deriving DecidableEq, Repr

/-- Total quantity of a token id in a native-token bag. -/
def qtyOf : List (Nat × Nat) → Nat → Nat
  | [], _ => 0
  | p :: rest, t => (if p.1 = t then p.2 else 0) + qtyOf rest t

/-- Sum of the base-token amounts of a list of outputs. -/
def sumAmounts : List Output → Nat
  | [] => 0
  | o :: rest => o.amount + sumAmounts rest

/-- Sum of the base-token amounts of a list of selected inputs. -/
def totalInputAmount : List InputSigningData → Nat
  | [] => 0
  | i :: rest => i.output.amount + totalInputAmount rest

/-- Summed quantity of a token id over a list of outputs. -/
def outputTokenSum : List Output → Nat → Nat
  | [], _ => 0
  | o :: rest, t => qtyOf o.tokens t + outputTokenSum rest t

/-- Summed quantity of a token id over a list of selected inputs. -/
def inputTokenSum : List InputSigningData → Nat → Nat
  | [], _ => 0
  | i :: rest, t => qtyOf i.output.tokens t + inputTokenSum rest t

/-- Modelled from the spec (§4.2): alias ids of desired alias outputs in
transition state (non-zero id), for which the seeder adds an `Alias(id)`
requirement. -/
def desiredAliasIds (desired : List Output) : List Nat :=
  desired.filterMap fun o =>
    match o with
    | .alias _ _ aid _ _ _ _ _ _ => if aid = 0 then none else some aid
    | _ => none

/-- Modelled from the spec (§4.2): nft ids of desired nft outputs in
transition state. -/
def desiredNftIds (desired : List Output) : List Nat :=
  desired.filterMap fun o =>
    match o with
    | .nft _ _ nid _ _ _ => if nid = 0 then none else some nid
    | _ => none

/-- Modelled from the spec (§3): a foundry id is derived from the foundry's
controlling alias and its serial number; it is modelled as that pair, and is
`none` for non-foundry outputs or a foundry without an immutable alias
address unlock condition. -/
def foundryIdOf : Output → Option (Nat × Nat)
  | .foundry _ _ serial uc =>
    match uc.immutableAlias with
    | some (Address.alias aid) => some (aid, serial)
    | _ => none
  | _ => none

/-- Foundry ids of the desired foundry outputs. -/
def desiredFoundryIds (desired : List Output) : List (Nat × Nat) :=
  desired.filterMap foundryIdOf

/-- Modelled from the spec (§4.2, §4.3): foundry ids of desired foundry
outputs, for which the seeder adds a `Foundry(id)` requirement; the seeder
skips burned foundry ids. -/
def foundryRequirementIds (desired : List Output) (burn : Burn) : List (Nat × Nat) :=
  desired.filterMap fun o =>
    match foundryIdOf o with
    | some fid => if fid ∈ burn.foundries then none else some fid
    | none => none

/-- Modelled from the spec (§4.2): each desired foundry output also seeds an
`Alias(controlling-alias-id)` requirement; the seeder skips burned
aliases. -/
def foundryAliasRequirements (desired : List Output) (burn : Burn) : List Nat :=
  desired.filterMap fun o =>
    match foundryIdOf o with
    | some fid => if fid.1 ∈ burn.aliases then none else some fid.1
    | none => none

/-- Modelled from the spec (§4.4): the first candidate foundry output whose
foundry id equals the required id. -/
def findFoundryInput (cands : List InputSigningData) (id : Nat × Nat) :
    Option InputSigningData :=
  cands.find? fun c => decide (foundryIdOf c.output = some id)

/-- Modelled from the spec (§4.4): serve the seeded foundry requirements,
selecting one matching input per required id or failing with
`UnfulfillableRequirement(Foundry(id))`. -/
def selectFoundryRequirements (cands : List InputSigningData) :
    List (Nat × Nat) → Except SelectionError (List InputSigningData)
  | [] => .ok []
  | id :: rest =>
    match findFoundryInput cands id with
    | none => .error (.unfulfillableRequirement (.foundry id))
    | some c =>
      match selectFoundryRequirements cands rest with
      | .error e => .error e
      | .ok s => .ok (c :: s)

/-- Modelled from the spec (§4.3): a burned identity must not appear in any
desired output; the first violating identity, if any (for a foundry, its
serial number). -/
def burnTransitionConflict (desired : List Output) (burn : Burn) : Option Nat :=
  (desired.filterMap fun o =>
    match o with
    | .alias _ _ aid _ _ _ _ _ _ => if aid ∈ burn.aliases then some aid else none
    | .nft _ _ nid _ _ _ => if nid ∈ burn.nfts then some nid else none
    | .foundry _ _ serial uc =>
      match uc.immutableAlias with
      | some (Address.alias aid) =>
        if (aid, serial) ∈ burn.foundries then some serial else none
      | _ => none
    | _ => none).head?

/-- Modelled from the spec (§4.2): sender features of the desired outputs. -/
def senderRequirements (desired : List Output) : List Address :=
  desired.filterMap fun o =>
    match o with
    | .basic _ _ _ s => s
    | .alias _ _ _ _ _ _ _ s _ => s
    | .nft _ _ _ _ s _ => s
    | _ => none

/-- Modelled from the spec (§4.2) as pinned by the repository's tests:
issuer features of desired alias/nft outputs whose identity is in creation
state (zero id).  The spec's wording says transition state, but the tests
`missing_ed25519_issuer_created` and `missing_ed25519_issuer_transition`
fix the opposite behaviour. -/
def issuerRequirements (desired : List Output) : List Address :=
  desired.filterMap fun o =>
    match o with
    | .alias _ _ aid _ _ _ _ _ iss => if aid = 0 then iss else none
    | .nft _ _ nid _ _ iss => if nid = 0 then iss else none
    | _ => none

/-- Modelled from the spec (§4.4): the first candidate alias output whose
resolved alias id equals the required id. -/
def findAliasInput (h : Nat → Nat) (cands : List InputSigningData) (id : Nat) :
    Option InputSigningData :=
  cands.find? fun c =>
    match c.output with
    | .alias _ _ aid _ _ _ _ _ _ => decide (orFromOutputId h aid c.outputId = id)
    | _ => false

/-- Modelled from the spec (§4.4): the first candidate nft output whose
resolved nft id equals the required id. -/
def findNftInput (h : Nat → Nat) (cands : List InputSigningData) (id : Nat) :
    Option InputSigningData :=
  cands.find? fun c =>
    match c.output with
    | .nft _ _ nid _ _ _ => decide (orFromOutputId h nid c.outputId = id)
    | _ => false

/-- Modelled from the spec (§4.4): serve the seeded alias requirements,
selecting one matching input per required id or failing with
`UnfulfillableRequirement(Alias(id))`. -/
def selectAliasRequirements (h : Nat → Nat) (cands : List InputSigningData) :
    List Nat → Except SelectionError (List InputSigningData)
  | [] => .ok []
  | id :: rest =>
    match findAliasInput h cands id with
    | none => .error (.unfulfillableRequirement (.alias id))
    | some c =>
      match selectAliasRequirements h cands rest with
      | .error e => .error e
      | .ok s => .ok (c :: s)

/-- Modelled from the spec (§4.4): serve the seeded nft requirements. -/
def selectNftRequirements (h : Nat → Nat) (cands : List InputSigningData) :
    List Nat → Except SelectionError (List InputSigningData)
  | [] => .ok []
  | id :: rest =>
    match findNftInput h cands id with
    | none => .error (.unfulfillableRequirement (.nft id))
    | some c =>
      match selectNftRequirements h cands rest with
      | .error e => .error e
      | .ok s => .ok (c :: s)

/-- Modelled from the spec (§4.4): serve sender/issuer requirements — each
required address must control an already selected input or some candidate
(which is then selected); otherwise the requirement is unfulfillable. -/
def serveAddressRequirements (mk : Address → Requirement) (cands : List InputSigningData)
    (selected : List InputSigningData) :
    List Address → Except SelectionError (List InputSigningData)
  | [] => .ok selected
  | a :: rest =>
    if selected.any (fun i => decide (i.bech32Address = a)) then
      serveAddressRequirements mk cands selected rest
    else
      match cands.find? (fun c => decide (c.bech32Address = a)) with
      | some c => serveAddressRequirements mk cands (selected ++ [c]) rest
      | none => .error (.unfulfillableRequirement (mk a))

/-- Keep only the first selected input per output id. -/
def dedupByOutputId (l : List InputSigningData) : List InputSigningData :=
  l.foldl
    (fun acc i =>
      if acc.any (fun j => decide (j.outputId = i.outputId)) then acc else acc ++ [i])
    []

/-- Modelled from the spec (§4.4, §4.3): selected alias/nft/foundry inputs
whose identity is neither burned nor already carried by a desired output;
each such input forces a synthesized transition output.  A burned alias
implicitly authorizes burning every foundry whose controlling alias it
is. -/
def forcedTransitionInputs (h : Nat → Nat) (desired : List Output) (burn : Burn)
    (s : List InputSigningData) : List InputSigningData :=
  s.filter fun i =>
    match i.output with
    | .alias _ _ aid _ _ _ _ _ _ =>
      let rid := orFromOutputId h aid i.outputId
      !decide (rid ∈ desiredAliasIds desired) && !decide (rid ∈ burn.aliases)
    | .nft _ _ nid _ _ _ =>
      let rid := orFromOutputId h nid i.outputId
      !decide (rid ∈ desiredNftIds desired) && !decide (rid ∈ burn.nfts)
    | .foundry _ _ serial uc =>
      match uc.immutableAlias with
      | some (Address.alias aid) =>
        !decide ((aid, serial) ∈ desiredFoundryIds desired)
          && !decide (aid ∈ burn.aliases) && !decide ((aid, serial) ∈ burn.foundries)
      | _ => false
    | _ => false

/-- Modelled from the spec (§4.4): the transition output synthesized for a
selected identity input — same variant, resolved identity, unlock
conditions and features, with the given base amount.  Native tokens of the
input are routed to the remainder accounting, so the transition's bag is
empty; the catch-all branch is unreachable because forced transition inputs
are alias, nft or foundry outputs. -/
def transitionOutput (h : Nat → Nat) (amount : Nat) (i : InputSigningData) : Output :=
  match i.output with
  | .alias _ _ aid si sm fc uc sender issuer =>
      .alias amount [] (orFromOutputId h aid i.outputId) si sm fc uc sender issuer
  | .nft _ _ nid uc sender issuer =>
      .nft amount [] (orFromOutputId h nid i.outputId) uc sender issuer
  | .foundry _ _ serial uc => .foundry amount [] serial uc
  | _ => .treasury amount

/-- Modelled from the spec (§4.4 step 3): for every selected input carrying
a storage-deposit-return unlock condition that is not expired at the
current time — decided by the source helper `sdr_not_expired` — the engine
synthesizes a matching basic return output of the deposit amount to the
return address. -/
def sdrReturnOutputs (time : Nat) : List InputSigningData → List Output
  | [] => []
  | i :: rest =>
    match sdr_not_expired i.output time with
    | some sdr =>
      Output.basic sdr.2 [] { address := some sdr.1 } none :: sdrReturnOutputs time rest
    | none => sdrReturnOutputs time rest

/-- Token ids carried by a list of outputs. -/
def desiredTokenIds : List Output → List Nat
  | [] => []
  | o :: rest => o.tokens.map Prod.fst ++ desiredTokenIds rest

/-- Token ids whose balance the engine must check: those of the desired
outputs and those of the burn directive. -/
def checkTokenIds (desired : List Output) (burn : Burn) : List Nat :=
  desiredTokenIds desired ++ burn.nativeTokens.map Prod.fst

/-- Token ids carried by the selected inputs. -/
def inputTokenIds : List InputSigningData → List Nat
  | [] => []
  | i :: rest => i.output.tokens.map Prod.fst ++ inputTokenIds rest

/-- Deduplicated list of every token id relevant to the selection. -/
def allTokenIds (desired : List Output) (burn : Burn) (s : List InputSigningData) : List Nat :=
  (checkTokenIds desired burn ++ inputTokenIds s).dedup

/-- Per-token surplus of the selection: input quantity minus desired output
quantity minus burned quantity. -/
def tokenSurplus (desired : List Output) (burn : Burn) (s : List InputSigningData)
    (t : Nat) : Nat :=
  inputTokenSum s t - outputTokenSum desired t - qtyOf burn.nativeTokens t

/-- Native-token bag of the remainder output: the positive per-token
surpluses over all relevant token ids. -/
def surplusBag (desired : List Output) (burn : Burn) (s : List InputSigningData) :
    List (Nat × Nat) :=
  (allTokenIds desired burn s).filterMap fun t =>
    if tokenSurplus desired burn s t = 0 then none else some (t, tokenSurplus desired burn s t)

/-- Modelled from the spec (§4.4): the remainder address — the caller's, or
the controlling address of the first selected input. -/
def remainderAddressOf (remAddr : Option Address) (s : List InputSigningData) : Address :=
  match remAddr with
  | some a => a
  | none =>
    match s.head? with
    | some i => i.bech32Address
    | none => .ed25519 0

/-- Basic remainder output with a single address unlock condition. -/
def mkRemainder (addr : Address) (amount : Nat) (bag : List (Nat × Nat)) : Output :=
  Output.basic amount bag { address := some addr } none

/-- Stable insertion of an input into a list kept in descending order of
output amount. -/
def insertByAmountDesc (i : InputSigningData) :
    List InputSigningData → List InputSigningData
  | [] => [i]
  | j :: rest =>
    if j.output.amount < i.output.amount then i :: j :: rest
    else j :: insertByAmountDesc i rest

/-- Sort inputs by descending output amount. -/
def sortByAmountDesc (l : List InputSigningData) : List InputSigningData :=
  l.foldr insertByAmountDesc []

/-- Modelled from the spec (§4.4, Amount): candidate order for amount
selection — basic outputs before identity outputs, descending amount within
each class. -/
def amountCandidateOrder (cands : List InputSigningData) : List InputSigningData :=
  sortByAmountDesc (cands.filter fun c => c.output.isBasic)
    ++ sortByAmountDesc (cands.filter fun c => !c.output.isBasic)

/-- Whether some checked token id is still short of its required quantity. -/
def tokenShortfall (desired : List Output) (burn : Burn) (s : List InputSigningData) : Bool :=
  (checkTokenIds desired burn).any fun t =>
    decide (inputTokenSum s t < outputTokenSum desired t + qtyOf burn.nativeTokens t)

/-- Modelled from the spec (§4.4, NativeToken): greedily select further
candidates that carry a still-short token id. -/
def extendForTokens (desired : List Output) (burn : Burn) :
    List InputSigningData → List InputSigningData → List InputSigningData
  | [], s => s
  | c :: rest, s =>
    if tokenShortfall desired burn s
        && c.output.tokens.any (fun p =>
          decide (inputTokenSum s p.1 < outputTokenSum desired p.1 + qtyOf burn.nativeTokens p.1))
    then extendForTokens desired burn rest (s ++ [c])
    else extendForTokens desired burn rest s

/-- Sum of the minimum storage deposits of the transition outputs forced by
a list of identity inputs. -/
def transitionMinList (rent : RentStructure) (h : Nat → Nat) :
    List InputSigningData → Nat
  | [] => 0
  | i :: rest => rentCost rent (transitionOutput h 0 i) + transitionMinList rent h rest

/-- Minimum storage deposits of the transition outputs forced by the
selection so far. -/
def transitionMinSum (rent : RentStructure) (h : Nat → Nat) (desired : List Output)
    (burn : Burn) (s : List InputSigningData) : Nat :=
  transitionMinList rent h (forcedTransitionInputs h desired burn s)

/-- Modelled from the spec (§4.4, Amount): greedily select candidates, in
the preferred order, until the selected base amount covers the desired
amounts plus the storage minima of all forced transition outputs plus the
storage-deposit-return obligations of the selected inputs. -/
def extendForAmount (rent : RentStructure) (h : Nat → Nat) (time : Nat)
    (desired : List Output) (burn : Burn) :
    List InputSigningData → List InputSigningData → List InputSigningData
  | [], s => s
  | c :: rest, s =>
    if totalInputAmount s < sumAmounts desired + transitionMinSum rent h desired burn s
        + sumAmounts (sdrReturnOutputs time s) then
      extendForAmount rent h time desired burn rest (s ++ [c])
    else s

/-- Modelled from the spec (§4.4 step 3, remainder handling and §4.8):
final balance checks and synthesis of storage-deposit-return, transition
and remainder outputs.  On success the outputs are the desired outputs, one
basic return output per selected input whose storage-deposit-return
condition has not expired, one transition output per forced identity input
(the base surplus augmenting the first transition when no token surplus
forces a basic remainder), and a basic remainder absorbing the remaining
base and token surplus. -/
def finalize (rent : RentStructure) (h : Nat → Nat) (time : Nat) (desired : List Output)
    (burn : Burn) (remAddr : Option Address) (s : List InputSigningData) :
    Except SelectionError (List InputSigningData × List Output) :=
  match (checkTokenIds desired burn).find?
      (fun t => decide (inputTokenSum s t < outputTokenSum desired t + qtyOf burn.nativeTokens t)) with
  | some t =>
    .error (.insufficientNativeTokenAmount t (inputTokenSum s t)
      (outputTokenSum desired t + qtyOf burn.nativeTokens t))
  | none =>
    if totalInputAmount s < sumAmounts desired + transitionMinSum rent h desired burn s
        + sumAmounts (sdrReturnOutputs time s) then
      .error (.insufficientBaseTokenAmount (totalInputAmount s)
        (sumAmounts desired + transitionMinSum rent h desired burn s
          + sumAmounts (sdrReturnOutputs time s)))
    else
      let surplus := totalInputAmount s
        - (sumAmounts desired + transitionMinSum rent h desired burn s
          + sumAmounts (sdrReturnOutputs time s))
      let bag := surplusBag desired burn s
      if bag.isEmpty then
        match forcedTransitionInputs h desired burn s with
        | [] =>
          if surplus = 0 then .ok (s, desired ++ sdrReturnOutputs time s)
          else
            let rem := mkRemainder (remainderAddressOf remAddr s) surplus []
            if surplus < rentCost rent rem then
              .error (.insufficientStorageDepositAmount surplus (rentCost rent rem))
            else .ok (s, desired ++ sdrReturnOutputs time s ++ [rem])
        | t1 :: trest =>
          .ok (s, desired ++ sdrReturnOutputs time s
            ++ transitionOutput h (rentCost rent (transitionOutput h 0 t1) + surplus) t1
              :: trest.map (fun i => transitionOutput h (rentCost rent (transitionOutput h 0 i)) i))
      else
        let rem := mkRemainder (remainderAddressOf remAddr s) surplus bag
        if surplus < rentCost rent rem then
          .error (.insufficientStorageDepositAmount surplus (rentCost rent rem))
        else
          .ok (s, desired ++ sdrReturnOutputs time s
            ++ (forcedTransitionInputs h desired burn s).map
                (fun i => transitionOutput h (rentCost rent (transitionOutput h 0 i)) i)
            ++ [rem])

/-- Modelled from the spec: the input-selection engine `select` (§4.4,
§6.1).  The engine implementation is not part of the repository snapshot —
only its tests and helpers are — so it is reconstructed from the spec's
state-machine description: burn/transition conflict check, requirement
seeding (§4.2, foundry outputs seeding both their foundry id and their
controlling alias), requirement serving in priority order (Alias, Foundry,
Nft, then Sender/Issuer), greedy token and amount selection, and
finalization with storage-deposit-return, transition and remainder
synthesis.  Two points are pinned by the repository's tests where they
contradict the spec's wording: issuer requirements are seeded in creation
state, and a forced transition output doubles as the remainder, reduced to
its storage minimum when its base amount is needed elsewhere. -/
def select (rent : RentStructure) (h : Nat → Nat) (time : Nat) (desired : List Output)
    (cands : List InputSigningData) (burn : Burn) (remAddr : Option Address) :
    Except SelectionError (List InputSigningData × List Output) :=
  match burnTransitionConflict desired burn with
  | some id => .error (.burnAndTransition id)
  | none =>
    match selectAliasRequirements h cands
        (desiredAliasIds desired ++ foundryAliasRequirements desired burn) with
    | .error e => .error e
    | .ok sa =>
      match selectFoundryRequirements cands (foundryRequirementIds desired burn) with
      | .error e => .error e
      | .ok sf =>
        match selectNftRequirements h cands (desiredNftIds desired) with
        | .error e => .error e
        | .ok sn =>
          let s0 := dedupByOutputId (sa ++ sf ++ sn)
          match serveAddressRequirements Requirement.sender cands s0
              (senderRequirements desired) with
          | .error e => .error e
          | .ok s1 =>
            match serveAddressRequirements Requirement.issuer cands s1
                (issuerRequirements desired) with
            | .error e => .error e
            | .ok s2 =>
              let s2d := dedupByOutputId s2
              let avail1 := cands.filter fun c =>
                !s2d.any (fun i => decide (i.outputId = c.outputId))
              let s3 := extendForTokens desired burn avail1 s2d
              let avail2 := cands.filter fun c =>
                !s3.any (fun i => decide (i.outputId = c.outputId))
              let s4 := extendForAmount rent h time desired burn
                (amountCandidateOrder avail2) s3
              finalize rent h time desired burn remAddr s4

/-- The fixed ed25519 address of the test fixtures. -/
def addrA : Address := Address.ed25519 42

/-- Unlock conditions with a single address unlock for the fixed address. -/
def ucAddrA : UnlockConditions := { address := some addrA }

/-- Alias unlock conditions (state controller and governor both the fixed
address), as built by the test fixture alias outputs. -/
def ucAliasA : UnlockConditions := { stateController := some addrA, governor := some addrA }

/-- Empty burn directive. -/
def noBurn : Burn := {}

/-- Candidate input of the amount-shortfall scenario: an alias output of
amount 1_000_000 with alias id 2. -/
def aliasInput2 : InputSigningData :=
  ⟨Output.alias 1000000 [] 2 0 0 0 ucAliasA none none, 900, addrA⟩

/-- Desired output of the amount-shortfall scenario: a basic output of
amount 2_000_000. -/
def basicOut2M : Output := Output.basic 2000000 [] ucAddrA none

/-- Candidate input of the mint scenario: a basic output of amount
2_000_000. -/
def basicInput2M : InputSigningData := ⟨Output.basic 2000000 [] ucAddrA none, 901, addrA⟩

/-- Desired output of the mint scenario: an alias output of amount
1_000_000 in creation state (all-zero alias id). -/
def aliasOutMint : Output := Output.alias 1000000 [] 0 0 0 0 ucAliasA none none

/-- The basic remainder output synthesized by the mint scenario. -/
def remOutMint : Output := mkRemainder addrA 1000000 []

/-- Whether an output is an alias output with a non-zero alias id. -/
def isNonzeroAlias : Output → Bool
  | .alias _ _ aid _ _ _ _ _ _ => decide (aid ≠ 0)
  | _ => false

/-- Unmatched issuer address of the issuer scenarios. -/
def issuerAddr : Address := Address.ed25519 77

/-- Candidate input of the issuer transition scenario: an nft output of
amount 1_000_000 with non-zero nft id 2. -/
def nftInput2 : InputSigningData := ⟨Output.nft 1000000 [] 2 ucAddrA none none, 902, addrA⟩

/-- Desired output of the issuer transition scenario: the nft in transition
state carrying an issuer feature matching no input. -/
def nftOutTransitionIssuer : Output := Output.nft 1000000 [] 2 ucAddrA none (some issuerAddr)

/-- Candidate input of the issuer creation scenario: a basic output of
amount 1_000_000. -/
def basicInput1M : InputSigningData := ⟨Output.basic 1000000 [] ucAddrA none, 903, addrA⟩

/-- Desired output of the issuer creation scenario: an nft in creation
state (zero id) carrying an issuer feature matching no input. -/
def nftOutCreationIssuer : Output := Output.nft 1000000 [] 0 ucAddrA none (some issuerAddr)

/-- Claim C7: `minimum_storage_deposit` returns the minimum base-token
amount of a basic output with exactly one address unlock condition for the
given address and the given native tokens, computed by the virtual-byte rent
formula, and the result does not depend on the placeholder amount used
internally to build the output. -/
theorem minimum_storage_deposit_eq_rent (config : RentStructure) (address : Address)
    (native_tokens : Option (List (Nat × Nat))) (amount : Nat) :
    minimum_storage_deposit config address native_tokens =
      rentCost config (Output.basic amount (native_tokens.getD [])
        { address := some address } none) := rfl

/-- Claim C8: `sdr_not_expired` returns the storage-deposit-return unlock
condition exactly when the output has unlock conditions carrying one and it
is not expired, where expiry means the output also carries an expiration
condition whose timestamp is at most the current time; in particular it
returns none for outputs without unlock conditions or without a
storage-deposit-return condition. -/
theorem sdr_not_expired_characterization (output : Output) (t : Nat) (s : Address × Nat) :
    sdr_not_expired output t = some s ↔
      ∃ uc, output.unlockConditions = some uc ∧ uc.storageDepositReturn = some s ∧
        ∀ e, uc.expiration = some e → t < e.2 := by
  unfold sdr_not_expired
  cases houc : output.unlockConditions with
  | none => simp
  | some uc =>
    dsimp only
    cases hsdr : uc.storageDepositReturn with
    | none => simp [hsdr]
    | some sdr =>
      dsimp only
      cases hexp : uc.expiration with
      | none => simp [hexp, hsdr]
      | some e =>
        dsimp only
        by_cases hle : t ≥ e.2
        · have hd : decide (t ≥ e.2) = true := by simp [hle]
          simp only [hd, if_true]
          constructor
          · intro hfalse; cases hfalse
          · rintro ⟨uc', huc', _, hall⟩
            cases huc'
            have := hall e hexp
            omega
        · have hd : decide (t ≥ e.2) = false := by simp [hle]
          rw [hd]
          constructor
          · intro hs'
            have hss : sdr = s := by simpa using hs'
            subst hss
            refine ⟨uc, rfl, hsdr, ?_⟩
            intro e' he'
            rw [hexp] at he'
            cases he'
            omega
          · rintro ⟨uc', huc', hs', _⟩
            cases huc'
            rw [hsdr] at hs'
            simpa using hs'

/-- Witness for C8: on a concrete basic output carrying a storage deposit
return of 5000 to address 9 and an expiration at time 100, the condition is
returned at time 50. -/
theorem sdr_not_expired_characterization_witness :
    sdr_not_expired
      (Output.basic 10000 []
        { address := some (Address.ed25519 1),
          storageDepositReturn := some (Address.ed25519 9, 5000),
          expiration := some (Address.ed25519 9, 100) } none) 50
      = some (Address.ed25519 9, 5000) :=
  (sdr_not_expired_characterization _ 50 (Address.ed25519 9, 5000)).mpr
    ⟨_, rfl, rfl, by intro e he; cases he; decide⟩

/-- Claim C9: `output_contains_address` returns true exactly when the
address is required for unlocking the output at the given time: the address
unlock's locked address (accounting for expiration) equals it, or the
state-controller, governor or immutable-alias-address unlock condition names
it; outputs without unlock conditions never contain an address. -/
theorem output_contains_address_iff (output : Output) (address : Address) (t : Nat) :
    output_contains_address output address t = true ↔
      ∃ uc, output.unlockConditions = some uc ∧
        ((∃ a, uc.address = some a ∧ address = lockedAddress uc a t) ∨
         uc.stateController = some address ∨
         uc.governor = some address ∨
         uc.immutableAlias = some address) := by
  unfold output_contains_address
  cases hou : output.unlockConditions with
  | none => simp
  | some uc =>
    dsimp only
    cases haddr : uc.address with
    | none =>
      simp only [haddr, Bool.false_or, Bool.or_eq_true, decide_eq_true_eq,
        Option.some.injEq]
      constructor
      · intro h
        exact ⟨uc, rfl, Or.inr (by tauto)⟩
      · rintro ⟨uc', huc', hcase⟩
        cases huc'
        rcases hcase with ⟨a, ha, _⟩ | h | h | h
        · rw [haddr] at ha; cases ha
        · tauto
        · tauto
        · tauto
    | some a =>
      simp only [haddr, Bool.or_eq_true, decide_eq_true_eq, Option.some.injEq]
      constructor
      · intro h
        refine ⟨uc, rfl, ?_⟩
        rcases h with ((hla | hsc) | hg) | hi
        · exact Or.inl ⟨a, haddr, hla⟩
        · exact Or.inr (Or.inl hsc)
        · exact Or.inr (Or.inr (Or.inl hg))
        · exact Or.inr (Or.inr (Or.inr hi))
      · rintro ⟨uc', huc', hcase⟩
        cases huc'
        rcases hcase with ⟨a', ha', hla⟩ | hsc | hg | hi
        · rw [haddr] at ha'
          cases ha'
          exact Or.inl (Or.inl (Or.inl hla))
        · exact Or.inl (Or.inl (Or.inr hsc))
        · exact Or.inl (Or.inr hg)
        · exact Or.inr hi

/-- Witness for C9: a concrete alias output whose governor is address 3
contains address 3 at time 0. -/
theorem output_contains_address_iff_witness :
    output_contains_address
      (Output.alias 100 [] 7 0 0 0
        { stateController := some (Address.ed25519 2), governor := some (Address.ed25519 3) }
        none none)
      (Address.ed25519 3) 0 = true :=
  (output_contains_address_iff _ _ 0).mpr ⟨_, rfl, Or.inr (Or.inr (Or.inl rfl))⟩

/-- Claim C3 (amended): `sort_input_signing_data` performs no cycle
detection at all — it returns `Ok` on every input list, cyclic unlock
chains included, rather than ever producing `CyclicUnlockChain`. -/
theorem sort_input_signing_data_never_errors (h : Nat → Nat)
    (inputs : List InputSigningData) :
    ∃ l, sort_input_signing_data h inputs = .ok l :=
  ⟨_, rfl⟩

/-- Counterexample to claim C3 as stated: on the cyclic chain
`[cycA, cycB]` (A is unlocked by B's nft identity and B by A's alias
identity) the sorting pass does not reject with `CyclicUnlockChain`; it
returns `Ok` with the inputs placed, A before its referent B. -/
theorem sort_input_signing_data_cycle_returns_ok :
    sort_input_signing_data hashModel [cycA, cycB] = .ok [cycA, cycB] := rfl

/-- Claim C2 evaluated at its failing input: on the acyclic unlock chain
U ← X ← R ← M ← E presented in the order `[U, R, X, M, E]`, every referent
is present among the inputs, yet the sort places U (controlled by alias
address 2) at index 2, strictly before X (the input carrying alias id 2) at
index 4, so the claimed ordering property is violated. -/
theorem sort_input_signing_data_misorders_chain :
    sort_input_signing_data hashModel [chainU, chainR, chainX, chainM, chainE]
        = .ok [chainE, chainM, chainU, chainR, chainX]
      ∧ referentsPlacedEarlier hashModel [chainE, chainM, chainU, chainR, chainX]
          [] [chainE, chainM, chainU, chainR, chainX] = false :=
  ⟨rfl, rfl⟩

/-- An input whose output id is already placed is skipped by the loop. -/
theorem insertInput_of_dup (h : Nat → Nat) (sorted : List InputSigningData)
    (inp : InputSigningData)
    (hdup : sorted.any (fun i => decide (i.outputId = inp.outputId)) = true) :
    insertInput h sorted inp = sorted := by
  unfold insertInput
  rw [if_pos hdup]

/-- An input whose output id is not yet placed is inserted exactly once,
whichever placement branch fires. -/
theorem insertInput_perm (h : Nat → Nat) (sorted : List InputSigningData)
    (inp : InputSigningData)
    (hdup : sorted.any (fun i => decide (i.outputId = inp.outputId)) = false) :
    (insertInput h sorted inp).Perm (inp :: sorted) := by
  unfold insertInput
  rw [if_neg (by simp [hdup])]
  cases hf : sorted.findIdx? (fun cand => unlocksInput h inp cand) with
  | some p =>
    have hp : p < sorted.length := (List.findIdx?_eq_some_iff_findIdx_eq.mp hf).1
    exact List.perm_insertIdx inp sorted (by omega)
  | none =>
    dsimp only
    cases ha : identityAddress h inp with
    | some a =>
      dsimp only
      cases hg : sorted.findIdx? (fun cand => decide (cand.bech32Address = a)) with
      | some p =>
        have hp : p < sorted.length := (List.findIdx?_eq_some_iff_findIdx_eq.mp hg).1
        exact List.perm_insertIdx inp sorted (by omega)
      | none => exact List.perm_append_singleton inp sorted
    | none => exact List.perm_append_singleton inp sorted

/-- Invariant of the placement loop: starting from an accumulator that
already holds exactly the ed25519-controlled entries (by output id) and
none of the others, the fold appends each remaining entry exactly once, up
to permutation. -/
theorem foldl_insertInput_perm (h : Nat → Nat) :
    ∀ (rest acc : List InputSigningData),
      (∀ i ∈ rest, isEd25519 i.bech32Address = true → i.outputId ∈ idsOf acc) →
      (∀ i ∈ rest, isEd25519 i.bech32Address = false → i.outputId ∉ idsOf acc) →
      (idsOf rest).Nodup →
      (rest.foldl (insertInput h) acc).Perm
        (acc ++ rest.filter (fun i => !isEd25519 i.bech32Address))
  | [], acc, _, _, _ => by simp
  | i :: rest, acc, hEd, hNotEd, hnd => by
    have hndTail : (idsOf rest).Nodup := by
      simp only [idsOf, List.map_cons] at hnd
      exact hnd.of_cons
    have hHeadNotTail : i.outputId ∉ idsOf rest := by
      simp only [idsOf, List.map_cons] at hnd
      exact (List.nodup_cons.mp hnd).1
    rw [List.foldl_cons]
    cases hcase : isEd25519 i.bech32Address with
    | true =>
      have hmem : i.outputId ∈ idsOf acc := hEd i (by simp) hcase
      have hdup : acc.any (fun j => decide (j.outputId = i.outputId)) = true := by
        rw [List.any_eq_true]
        rcases List.mem_map.mp hmem with ⟨j, hj, hje⟩
        exact ⟨j, hj, by simp [hje]⟩
      rw [insertInput_of_dup h acc i hdup]
      have hrec := foldl_insertInput_perm h rest acc
        (fun j hj hcj => hEd j (by simp [hj]) hcj)
        (fun j hj hcj => hNotEd j (by simp [hj]) hcj)
        hndTail
      simpa [List.filter_cons, hcase] using hrec
    | false =>
      have hnmem : i.outputId ∉ idsOf acc := hNotEd i (by simp) hcase
      have hdup : acc.any (fun j => decide (j.outputId = i.outputId)) = false := by
        rw [List.any_eq_false]
        intro j hj
        simp only [decide_eq_true_eq]
        exact fun hje => hnmem (List.mem_map.mpr ⟨j, hj, hje⟩)
      have hperm1 := insertInput_perm h acc i hdup
      have hidperm : (idsOf (insertInput h acc i)).Perm (idsOf (i :: acc)) :=
        hperm1.map InputSigningData.outputId
      have hrec := foldl_insertInput_perm h rest (insertInput h acc i)
        (fun j hj hcj => by
          have hj' := hEd j (by simp [hj]) hcj
          exact hidperm.mem_iff.mpr (by simp [idsOf, List.map_cons]; right; simpa [idsOf] using hj'))
        (fun j hj hcj hmem => by
          have hj' := hNotEd j (by simp [hj]) hcj
          have hmem' := hidperm.mem_iff.mp hmem
          simp only [idsOf, List.map_cons, List.mem_cons] at hmem'
          rcases hmem' with heq | hmemacc
          · exact hHeadNotTail (heq ▸ List.mem_map.mpr ⟨j, hj, rfl⟩)
          · exact hj' hmemacc)
        hndTail
      have hfinal : (rest.foldl (insertInput h) (insertInput h acc i)).Perm
          (acc ++ i :: rest.filter (fun j => !isEd25519 j.bech32Address)) := by
        refine hrec.trans ?_
        refine (hperm1.append_right _).trans ?_
        exact List.perm_middle.symm
      simpa [List.filter_cons, hcase] using hfinal

/-- Claim C10 (amended): on every input list whose entries have pairwise
distinct output ids, `sort_input_signing_data` returns `Ok` and its result
is a permutation of the input list — no input is dropped and none is
duplicated.  (When entries share an output id, only the placement loop
deduplicates; duplicated ed25519-controlled entries all survive the initial
partition, see the counterexample.) -/
theorem sort_input_signing_data_perm (h : Nat → Nat) (inputs : List InputSigningData)
    (hnd : (inputs.map InputSigningData.outputId).Nodup) :
    ∃ l, sort_input_signing_data h inputs = .ok l ∧ l.Perm inputs := by
  refine ⟨_, rfl, ?_⟩
  have hmain := foldl_insertInput_perm h inputs
    (inputs.filter fun i => isEd25519 i.bech32Address)
    (fun i hi hed => List.mem_map.mpr ⟨i, List.mem_filter.mpr ⟨hi, hed⟩, rfl⟩)
    (fun i hi hed hmem => by
      rcases List.mem_map.mp hmem with ⟨j, hj, hje⟩
      have hj' := List.mem_filter.mp hj
      have heq : j = i := List.inj_on_of_nodup_map hnd hj'.1 hi hje
      have h2 : isEd25519 i.bech32Address = true := heq ▸ hj'.2
      rw [hed] at h2
      cases h2)
    hnd
  exact hmain.trans (List.filter_append_perm _ inputs)

/-- Witness for the amended C10 theorem at a concrete two-element list. -/
theorem sort_input_signing_data_perm_witness :
    ∃ l, sort_input_signing_data hashModel [wIn1, wIn2] = .ok l ∧ l.Perm [wIn1, wIn2] :=
  sort_input_signing_data_perm hashModel [wIn1, wIn2] (by decide)

/-- Counterexample to claim C10 as stated: entries sharing an output id are
not reduced to at most one per id — a duplicated ed25519-controlled entry
survives the initial partition twice, so the result carries output id 300
twice. -/
theorem sort_input_signing_data_keeps_duplicates :
    sort_input_signing_data hashModel [dupE, dupE] = .ok [dupE, dupE]
      ∧ ¬ ([dupE, dupE].map InputSigningData.outputId).Nodup :=
  ⟨rfl, by decide⟩

/-- Claim C4 (amended): at the amount-shortfall input — one candidate alias
input of amount 1_000_000 with non-zero id 2, one desired basic output of
amount 2_000_000 — `select` fails with the base-token insufficiency error
carrying found 1_000_000 and required 2_251_500, where required equals the
desired amount plus the 251_500 minimum storage deposit of the alias
remainder output. -/
theorem select_alias_shortfall_error :
    select defaultRentStructure hashModel 0 [basicOut2M] [aliasInput2] noBurn none
        = .error (.insufficientBaseTokenAmount 1000000 2251500)
      ∧ 2251500 = 2000000
          + rentCost defaultRentStructure (transitionOutput hashModel 0 aliasInput2) :=
  ⟨rfl, rfl⟩

/-- Counterexample to claim C4 as stated: at the amount-shortfall input the
error's required amount is 2_251_500 (desired plus the alias remainder
minimum), not the claimed 2_229_500 (the nft remainder figure). -/
theorem select_alias_shortfall_not_nft_figure :
    select defaultRentStructure hashModel 0 [basicOut2M] [aliasInput2] noBurn none
      ≠ .error (.insufficientBaseTokenAmount 1000000 2229500) := by
  intro hc
  have heval : select defaultRentStructure hashModel 0 [basicOut2M] [aliasInput2] noBurn none
      = .error (.insufficientBaseTokenAmount 1000000 2251500) := rfl
  rw [heval] at hc
  simp at hc

/-- Claim C5 (amended): minting an alias of amount 1_000_000 from a basic
input of 2_000_000 succeeds with exactly two outputs — the alias output,
its id left at the zero creation-state value as supplied, and a basic
remainder of amount 1_000_000, at least the storage-deposit minimum — the
two amounts summing to 2_000_000. -/
theorem select_mint_alias :
    select defaultRentStructure hashModel 0 [aliasOutMint] [basicInput2M] noBurn none
        = .ok ([basicInput2M], [aliasOutMint, remOutMint])
      ∧ sumAmounts [aliasOutMint, remOutMint] = 2000000
      ∧ minimum_storage_deposit defaultRentStructure addrA none ≤ remOutMint.amount :=
  ⟨rfl, rfl, by decide⟩

/-- Counterexample to claim C5 as stated: the mint result's alias output
keeps the zero creation-state alias id — no output of the result is an
alias with a non-zero id (the repository's test `create_alias` likewise
asserts the zero id in the result). -/
theorem select_mint_alias_keeps_zero_id :
    select defaultRentStructure hashModel 0 [aliasOutMint] [basicInput2M] noBurn none
        = .ok ([basicInput2M], [aliasOutMint, remOutMint])
      ∧ [aliasOutMint, remOutMint].any isNonzeroAlias = false :=
  ⟨rfl, rfl⟩

/-- Claim C6 (amended): the seeder adds an issuer requirement only for a
desired output whose identity is in creation state (zero id); hence
`select` fails with the unfulfillable-issuer error for a creation-state
output whose issuer matches no candidate input, while a transition-state
output with the same unmatched issuer succeeds. -/
theorem select_issuer_creation_only :
    select defaultRentStructure hashModel 0 [nftOutCreationIssuer] [basicInput1M] noBurn none
        = .error (.unfulfillableRequirement (.issuer issuerAddr))
      ∧ select defaultRentStructure hashModel 0 [nftOutTransitionIssuer] [nftInput2] noBurn none
        = .ok ([nftInput2], [nftOutTransitionIssuer]) :=
  ⟨rfl, rfl⟩

/-- Counterexample to claim C6 as stated: for the transition-state nft
output with an unmatched issuer the engine does not fail with the
unfulfillable-issuer error — it succeeds. -/
theorem select_issuer_transition_no_error :
    select defaultRentStructure hashModel 0 [nftOutTransitionIssuer] [nftInput2] noBurn none
      ≠ .error (.unfulfillableRequirement (.issuer issuerAddr)) := by
  intro hc
  have heval : select defaultRentStructure hashModel 0 [nftOutTransitionIssuer] [nftInput2]
      noBurn none = .ok ([nftInput2], [nftOutTransitionIssuer]) := rfl
  rw [heval] at hc
  exact Except.noConfusion hc

/-- Token quantity distributes over bag concatenation. -/
theorem qtyOf_append (a b : List (Nat × Nat)) (t : Nat) :
    qtyOf (a ++ b) t = qtyOf a t + qtyOf b t := by
  induction a with
  | nil => simp [qtyOf]
  | cons p rest ih => simp [qtyOf, ih]; omega

/-- Amount sums distribute over output-list concatenation. -/
theorem sumAmounts_append (a b : List Output) :
    sumAmounts (a ++ b) = sumAmounts a + sumAmounts b := by
  induction a with
  | nil => simp [sumAmounts]
  | cons o rest ih => simp [sumAmounts, ih]; omega

/-- Token sums distribute over output-list concatenation. -/
theorem outputTokenSum_append (a b : List Output) (t : Nat) :
    outputTokenSum (a ++ b) t = outputTokenSum a t + outputTokenSum b t := by
  induction a with
  | nil => simp [outputTokenSum]
  | cons o rest ih => simp [outputTokenSum, ih]; omega

/-- A transition output carries exactly the amount it is given. -/
theorem transitionOutput_amount (h : Nat → Nat) (a : Nat) (i : InputSigningData) :
    (transitionOutput h a i).amount = a := by
  unfold transitionOutput
  rcases i with ⟨o, oid, addr⟩
  cases o <;> rfl

/-- A transition output carries no native tokens. -/
theorem transitionOutput_tokens (h : Nat → Nat) (a : Nat) (i : InputSigningData) :
    (transitionOutput h a i).tokens = [] := by
  unfold transitionOutput
  rcases i with ⟨o, oid, addr⟩
  cases o <;> rfl

/-- Transition outputs built at their storage minima sum to the transition
minimum of the underlying input list. -/
theorem sumAmounts_transition_map (rent : RentStructure) (h : Nat → Nat)
    (l : List InputSigningData) :
    sumAmounts (l.map fun i => transitionOutput h (rentCost rent (transitionOutput h 0 i)) i)
      = transitionMinList rent h l := by
  induction l with
  | nil => rfl
  | cons i rest ih =>
    simp [sumAmounts, transitionMinList, transitionOutput_amount, ih]

/-- Transition outputs contribute nothing to any token sum. -/
theorem outputTokenSum_transition_map (h : Nat → Nat) (f : InputSigningData → Nat)
    (l : List InputSigningData) (t : Nat) :
    outputTokenSum (l.map fun i => transitionOutput h (f i) i) t = 0 := by
  induction l with
  | nil => rfl
  | cons i rest ih =>
    simp [outputTokenSum, transitionOutput_tokens, qtyOf, ih]

/-- A token id absent from a bag has zero quantity in it. -/
theorem qtyOf_eq_zero (bag : List (Nat × Nat)) (t : Nat)
    (hnm : t ∉ bag.map Prod.fst) : qtyOf bag t = 0 := by
  induction bag with
  | nil => rfl
  | cons p rest ih =>
    simp only [List.map_cons, List.mem_cons] at hnm
    push_neg at hnm
    simp [qtyOf, ih hnm.2, Ne.symm hnm.1]

/-- A token id with a non-zero output sum occurs among the outputs' token
ids. -/
theorem mem_desiredTokenIds (desired : List Output) (t : Nat)
    (hne : outputTokenSum desired t ≠ 0) : t ∈ desiredTokenIds desired := by
  induction desired with
  | nil => simp [outputTokenSum] at hne
  | cons o rest ih =>
    simp only [desiredTokenIds, List.mem_append]
    by_cases hq : qtyOf o.tokens t = 0
    · have hr : outputTokenSum rest t ≠ 0 := by
        simp only [outputTokenSum] at hne
        omega
      exact Or.inr (ih hr)
    · left
      by_contra hmem
      exact hq (qtyOf_eq_zero _ _ hmem)

/-- A token id with a non-zero input sum occurs among the inputs' token
ids. -/
theorem mem_inputTokenIds (s : List InputSigningData) (t : Nat)
    (hne : inputTokenSum s t ≠ 0) : t ∈ inputTokenIds s := by
  induction s with
  | nil => simp [inputTokenSum] at hne
  | cons i rest ih =>
    simp only [inputTokenIds, List.mem_append]
    by_cases hq : qtyOf i.output.tokens t = 0
    · have hr : inputTokenSum rest t ≠ 0 := by
        simp only [inputTokenSum] at hne
        omega
      exact Or.inr (ih hr)
    · left
      by_contra hmem
      exact hq (qtyOf_eq_zero _ _ hmem)

/-- Quantity of each token id in a surplus bag built over a duplicate-free
id list. -/
theorem qtyOf_filterMap_surplus (f : Nat → Nat) (l : List Nat) (hnd : l.Nodup) (t : Nat) :
    qtyOf (l.filterMap fun u => if f u = 0 then none else some (u, f u)) t
      = if t ∈ l then f t else 0 := by
  induction l with
  | nil => simp [qtyOf]
  | cons u rest ih =>
    have hnu : u ∉ rest := (List.nodup_cons.mp hnd).1
    have ihr := ih (List.nodup_cons.mp hnd).2
    simp only [List.filterMap_cons]
    by_cases hf : f u = 0
    · rw [if_pos hf]
      dsimp only
      rw [ihr]
      by_cases ht : t = u
      · subst ht
        simp [hnu, hf]
      · simp [ht]
    · rw [if_neg hf]
      dsimp only
      simp only [qtyOf]
      rw [ihr]
      by_cases ht : t = u
      · subst ht
        simp [hnu]
      · have hut : ¬(u = t) := fun hh => ht hh.symm
        simp [ht, hut]

/-- Quantity of each token id in the engine's surplus bag. -/
theorem qtyOf_surplusBag (desired : List Output) (burn : Burn) (s : List InputSigningData)
    (t : Nat) :
    qtyOf (surplusBag desired burn s) t
      = if t ∈ allTokenIds desired burn s then tokenSurplus desired burn s t else 0 :=
  qtyOf_filterMap_surplus (tokenSurplus desired burn s) _ (List.nodup_dedup _) t

/-- An empty surplus bag means every relevant token id has zero surplus. -/
theorem surplusBag_empty (desired : List Output) (burn : Burn) (s : List InputSigningData)
    (he : (surplusBag desired burn s).isEmpty = true) :
    ∀ t ∈ allTokenIds desired burn s, tokenSurplus desired burn s t = 0 := by
  intro t ht
  have hnil : surplusBag desired burn s = [] := by
    cases hsb : surplusBag desired burn s with
    | nil => rfl
    | cons p rest => rw [hsb] at he; cases he
  have hx := List.filterMap_eq_nil_iff.mp hnil t ht
  by_contra hne
  rw [if_neg hne] at hx
  cases hx

/-- A passed token check bounds every checked token id's requirement by the
input sum. -/
theorem checkIds_ok (desired : List Output) (burn : Burn) (s : List InputSigningData)
    (hfind : (checkTokenIds desired burn).find?
        (fun t => decide (inputTokenSum s t
          < outputTokenSum desired t + qtyOf burn.nativeTokens t)) = none) :
    ∀ t ∈ checkTokenIds desired burn,
      outputTokenSum desired t + qtyOf burn.nativeTokens t ≤ inputTokenSum s t := by
  intro t ht
  have hx := List.find?_eq_none.mp hfind t ht
  simp only [decide_eq_true_eq] at hx
  omega

/-- Membership in the deduplicated relevant token ids. -/
theorem mem_allTokenIds (desired : List Output) (burn : Burn) (s : List InputSigningData)
    (t : Nat) :
    t ∈ allTokenIds desired burn s ↔
      t ∈ checkTokenIds desired burn ∨ t ∈ inputTokenIds s := by
  simp [allTokenIds, List.mem_dedup]

/-- A token id outside the checked ids has zero output sum. -/
theorem outputTokenSum_zero_of_not_check (desired : List Output) (burn : Burn) (t : Nat)
    (hck : t ∉ checkTokenIds desired burn) : outputTokenSum desired t = 0 := by
  by_contra hne
  exact hck (by
    unfold checkTokenIds
    exact List.mem_append.mpr (Or.inl (mem_desiredTokenIds desired t hne)))

/-- Token balance through the remainder bag: for every unburned token id,
desired outputs plus the surplus bag account for the full input sum. -/
theorem token_balance (desired : List Output) (burn : Burn) (s : List InputSigningData)
    (hchk : ∀ t ∈ checkTokenIds desired burn,
      outputTokenSum desired t + qtyOf burn.nativeTokens t ≤ inputTokenSum s t)
    (t : Nat) (hnb : t ∉ burn.nativeTokens.map Prod.fst) :
    outputTokenSum desired t + qtyOf (surplusBag desired burn s) t = inputTokenSum s t := by
  have hb0 : qtyOf burn.nativeTokens t = 0 := qtyOf_eq_zero _ _ hnb
  rw [qtyOf_surplusBag]
  by_cases hmem : t ∈ allTokenIds desired burn s
  · rw [if_pos hmem]
    unfold tokenSurplus
    rw [hb0]
    have hdes_le : outputTokenSum desired t ≤ inputTokenSum s t := by
      by_cases hck : t ∈ checkTokenIds desired burn
      · have := hchk t hck
        omega
      · have hz := outputTokenSum_zero_of_not_check desired burn t hck
        omega
    omega
  · rw [if_neg hmem]
    have hdz : outputTokenSum desired t = 0 := by
      by_contra hne
      exact hmem ((mem_allTokenIds desired burn s t).mpr
        (Or.inl (by
          unfold checkTokenIds
          exact List.mem_append.mpr (Or.inl (mem_desiredTokenIds desired t hne)))))
    have hiz : inputTokenSum s t = 0 := by
      by_contra hne
      exact hmem ((mem_allTokenIds desired burn s t).mpr (Or.inr (mem_inputTokenIds s t hne)))
    omega

/-- Token balance when the surplus bag is empty: desired outputs alone
account for the full input sum of every unburned token id. -/
theorem token_balance_empty (desired : List Output) (burn : Burn) (s : List InputSigningData)
    (hchk : ∀ t ∈ checkTokenIds desired burn,
      outputTokenSum desired t + qtyOf burn.nativeTokens t ≤ inputTokenSum s t)
    (hemp : ∀ t ∈ allTokenIds desired burn s, tokenSurplus desired burn s t = 0)
    (t : Nat) (hnb : t ∉ burn.nativeTokens.map Prod.fst) :
    outputTokenSum desired t = inputTokenSum s t := by
  have hb0 : qtyOf burn.nativeTokens t = 0 := qtyOf_eq_zero _ _ hnb
  by_cases hmem : t ∈ allTokenIds desired burn s
  · have hsz := hemp t hmem
    unfold tokenSurplus at hsz
    rw [hb0] at hsz
    by_cases hck : t ∈ checkTokenIds desired burn
    · have := hchk t hck
      omega
    · have hz := outputTokenSum_zero_of_not_check desired burn t hck
      omega
  · have hdz : outputTokenSum desired t = 0 := by
      by_contra hne
      exact hmem ((mem_allTokenIds desired burn s t).mpr
        (Or.inl (by
          unfold checkTokenIds
          exact List.mem_append.mpr (Or.inl (mem_desiredTokenIds desired t hne)))))
    have hiz : inputTokenSum s t = 0 := by
      by_contra hne
      exact hmem ((mem_allTokenIds desired burn s t).mpr (Or.inr (mem_inputTokenIds s t hne)))
    omega

/-- Amount of a remainder output. -/
theorem mkRemainder_amount (addr : Address) (n : Nat) (bag : List (Nat × Nat)) :
    (mkRemainder addr n bag).amount = n := rfl

/-- Token bag of a remainder output. -/
theorem mkRemainder_tokens (addr : Address) (n : Nat) (bag : List (Nat × Nat)) :
    (mkRemainder addr n bag).tokens = bag := rfl

/-- Amount sum of a singleton output list. -/
theorem sumAmounts_single (o : Output) : sumAmounts [o] = o.amount := by
  simp [sumAmounts]

/-- Storage-deposit-return outputs carry no native tokens. -/
theorem outputTokenSum_sdrReturn (time : Nat) (s : List InputSigningData) (t : Nat) :
    outputTokenSum (sdrReturnOutputs time s) t = 0 := by
  induction s with
  | nil => rfl
  | cons i rest ih =>
    unfold sdrReturnOutputs
    split
    · simp [outputTokenSum, Output.tokens, qtyOf, ih]
    · exact ih

/-- Conservation through finalization: on success the selected inputs are
returned unchanged, the output amounts (storage-deposit-return, transition
and remainder outputs included) sum to the input amounts, and every token
id not listed in the burn directive balances between inputs and outputs. -/
theorem finalize_conservation (rent : RentStructure) (h : Nat → Nat) (time : Nat)
    (desired : List Output) (burn : Burn) (remAddr : Option Address)
    (s sSel : List InputSigningData) (outs : List Output)
    (hf : finalize rent h time desired burn remAddr s = .ok (sSel, outs)) :
    sSel = s ∧ sumAmounts outs = totalInputAmount sSel
      ∧ ∀ t, t ∉ burn.nativeTokens.map Prod.fst →
          inputTokenSum sSel t = outputTokenSum outs t := by
  unfold finalize at hf
  split at hf
  · exact Except.noConfusion hf
  next hfind =>
    have hchk := checkIds_ok desired burn s hfind
    split at hf
    · exact Except.noConfusion hf
    next hge =>
      dsimp only at hf
      split at hf
      next hbe =>
        have hemp := surplusBag_empty desired burn s hbe
        split at hf
        next heqTrans =>
          have hmin : transitionMinSum rent h desired burn s = 0 := by
            unfold transitionMinSum
            rw [heqTrans]
            rfl
          split at hf
          next hz =>
            injection hf with hpair
            injection hpair with h1 h2
            subst h1
            subst h2
            refine ⟨rfl, ?_, ?_⟩
            · rw [sumAmounts_append]
              omega
            · intro t hnb
              rw [outputTokenSum_append, outputTokenSum_sdrReturn]
              have hbal := (token_balance_empty desired burn s hchk hemp t hnb).symm
              omega
          next hz =>
            split at hf
            · exact Except.noConfusion hf
            next hrent =>
              injection hf with hpair
              injection hpair with h1 h2
              subst h1
              subst h2
              refine ⟨rfl, ?_, ?_⟩
              · rw [sumAmounts_append, sumAmounts_append, sumAmounts_single,
                  mkRemainder_amount]
                omega
              · intro t hnb
                rw [outputTokenSum_append, outputTokenSum_append, outputTokenSum_sdrReturn]
                have hrem : outputTokenSum [mkRemainder (remainderAddressOf remAddr s)
                    (totalInputAmount s
                      - (sumAmounts desired + transitionMinSum rent h desired burn s
                        + sumAmounts (sdrReturnOutputs time s))) []] t
                    = 0 := by
                  simp [outputTokenSum, mkRemainder_tokens, qtyOf]
                rw [hrem]
                have hbal := (token_balance_empty desired burn s hchk hemp t hnb).symm
                omega
        next t1 trest heqTrans =>
          have hmin : transitionMinSum rent h desired burn s
              = rentCost rent (transitionOutput h 0 t1) + transitionMinList rent h trest := by
            unfold transitionMinSum
            rw [heqTrans]
            rfl
          injection hf with hpair
          injection hpair with h1 h2
          subst h1
          subst h2
          refine ⟨rfl, ?_, ?_⟩
          · rw [sumAmounts_append, sumAmounts_append]
            have hcons : sumAmounts (transitionOutput h
                  (rentCost rent (transitionOutput h 0 t1)
                    + (totalInputAmount s
                      - (sumAmounts desired + transitionMinSum rent h desired burn s
                        + sumAmounts (sdrReturnOutputs time s)))) t1
                :: trest.map (fun i => transitionOutput h
                    (rentCost rent (transitionOutput h 0 i)) i))
                = rentCost rent (transitionOutput h 0 t1)
                  + (totalInputAmount s
                    - (sumAmounts desired + transitionMinSum rent h desired burn s
                      + sumAmounts (sdrReturnOutputs time s)))
                  + transitionMinList rent h trest := by
              simp [sumAmounts, transitionOutput_amount, sumAmounts_transition_map]
            rw [hcons]
            omega
          · intro t hnb
            rw [outputTokenSum_append, outputTokenSum_append, outputTokenSum_sdrReturn]
            have htr0 : outputTokenSum (transitionOutput h
                  (rentCost rent (transitionOutput h 0 t1)
                    + (totalInputAmount s
                      - (sumAmounts desired + transitionMinSum rent h desired burn s
                        + sumAmounts (sdrReturnOutputs time s)))) t1
                :: trest.map (fun i => transitionOutput h
                    (rentCost rent (transitionOutput h 0 i)) i)) t
                = 0 := by
              simp [outputTokenSum, transitionOutput_tokens, qtyOf,
                outputTokenSum_transition_map]
            rw [htr0]
            have hbal := (token_balance_empty desired burn s hchk hemp t hnb).symm
            omega
      next hbe =>
        split at hf
        · exact Except.noConfusion hf
        next hrent =>
          injection hf with hpair
          injection hpair with h1 h2
          subst h1
          subst h2
          refine ⟨rfl, ?_, ?_⟩
          · rw [sumAmounts_append, sumAmounts_append, sumAmounts_append, sumAmounts_single,
              mkRemainder_amount, sumAmounts_transition_map]
            have hms : transitionMinList rent h (forcedTransitionInputs h desired burn s)
                = transitionMinSum rent h desired burn s := rfl
            omega
          · intro t hnb
            rw [outputTokenSum_append, outputTokenSum_append, outputTokenSum_append,
              outputTokenSum_sdrReturn]
            have htr0 : outputTokenSum ((forcedTransitionInputs h desired burn s).map
                (fun i => transitionOutput h (rentCost rent (transitionOutput h 0 i)) i)) t
                = 0 := outputTokenSum_transition_map h _ _ t
            have hrem : outputTokenSum [mkRemainder (remainderAddressOf remAddr s)
                (totalInputAmount s
                  - (sumAmounts desired + transitionMinSum rent h desired burn s
                    + sumAmounts (sdrReturnOutputs time s)))
                (surplusBag desired burn s)] t
                = qtyOf (surplusBag desired burn s) t := by
              simp [outputTokenSum, mkRemainder_tokens, qtyOf]
            rw [htr0, hrem]
            have hbal := token_balance desired burn s hchk t hnb
            omega

/-- Claim C1: for every successful invocation of the modelled engine, the
sum of base-token amounts over the selected inputs equals the sum over the
returned outputs (synthesized storage-deposit-return, transition and
remainder outputs included), and for every token id not listed in the burn
directive the summed input quantity equals the summed output quantity. -/
theorem select_conserves (rent : RentStructure) (h : Nat → Nat) (time : Nat)
    (desired : List Output) (cands : List InputSigningData) (burn : Burn)
    (remAddr : Option Address) (sSel : List InputSigningData) (outs : List Output)
    (hsel : select rent h time desired cands burn remAddr = .ok (sSel, outs)) :
    sumAmounts outs = totalInputAmount sSel
      ∧ ∀ t, t ∉ burn.nativeTokens.map Prod.fst →
          inputTokenSum sSel t = outputTokenSum outs t := by
  unfold select at hsel
  split at hsel
  · exact Except.noConfusion hsel
  · split at hsel
    · exact Except.noConfusion hsel
    · split at hsel
      · exact Except.noConfusion hsel
      · split at hsel
        · exact Except.noConfusion hsel
        · dsimp only at hsel
          split at hsel
          · exact Except.noConfusion hsel
          · split at hsel
            · exact Except.noConfusion hsel
            · obtain ⟨-, h2, h3⟩ := finalize_conservation _ _ _ _ _ _ _ _ _ hsel
              exact ⟨h2, h3⟩

/-- Witness for the conservation theorem at the concrete mint scenario:
the hypothesis is discharged by evaluation and both balances follow. -/
theorem select_conserves_witness :
    sumAmounts [aliasOutMint, remOutMint] = totalInputAmount [basicInput2M]
      ∧ ∀ t, t ∉ noBurn.nativeTokens.map Prod.fst →
          inputTokenSum [basicInput2M] t = outputTokenSum [aliasOutMint, remOutMint] t :=
  select_conserves defaultRentStructure hashModel 0 [aliasOutMint] [basicInput2M] noBurn
    none [basicInput2M] [aliasOutMint, remOutMint] rfl
